import Mathlib

/-!
Verification of the job-orchestration subsystem of the PDF-to-Markdown web
application (`src/app.py`).  The mutable pieces of the program are embedded
shallowly: the process-wide `processing_status` dict becomes an association
list from job id to `Job` record, the filesystem becomes an association list
from path to file content, and the external conversion engine (`parse_pdf`)
becomes an oracle value of type `Except String (String × List String)`
(an exception message, or the returned `(content, image_paths)` pair).
Each Flask route handler is translated into a pure function over these
states, following the Python source line by line.
-/

/-- Job status values stored in the `status` field of a registry entry. -/
inductive Status where
  | queued
  | processing
  | completed
  | failed
deriving DecidableEq, Repr

/-- Rendering of a `Status` as the string the Python code stores. -/
def Status.str : Status → String
  | .queued => "queued"
  | .processing => "processing"
  | .completed => "completed"
  | .failed => "failed"

/-- One entry of the `processing_status` dict.  Keys that the Python code
only adds later in the life of a job (`error`, `images`, `output_dir`)
are modelled as `Option` fields, `none` meaning the key is absent. -/
structure Job where
  job_id : String
  status : Status
  progress : Nat
  message : String
  error : Option String := none
  pdf_path : String
  filename : String
  created_at : String
  images : Option (List String) := none
  output_dir : Option String := none
deriving DecidableEq, Repr

/-- The `processing_status` dict: an association list from job id to entry. -/
abbrev Registry := List (String × Job)

/-- Replacement of the entry stored under `id` (Python dict item mutation). -/
def updateEntry (reg : Registry) (id : String) (j : Job) : Registry :=
  reg.map (fun p => if p.1 = id then (id, j) else p)

/-- The filesystem, as an association list from absolute path to content. -/
abbrev FS := List (String × String)

/-- Lookup of a path in the filesystem model (`os.path.exists` plus read). -/
def fsLookup (fs : FS) (p : String) : Option String :=
  List.lookup p fs

/-- Model of `os.path.join` for the relative paths the application builds. -/
def pathJoin (a b : String) : String := a ++ "/" ++ b

/-- Model of Python `str.replace(pat, new)` on character lists: replaces
every non-overlapping occurrence of `pat` left to right.  `skip` counts
pattern characters still to be consumed after a match was found.  Only
used with non-empty patterns. -/
def pyReplaceAux (pat new : List Char) (skip : Nat) : List Char → List Char
  | [] => []
  | c :: rest =>
    match skip with
    | n+1 => pyReplaceAux pat new n rest
    | 0 =>
      if pat.isPrefixOf (c :: rest)
      then new ++ pyReplaceAux pat new (pat.length - 1) rest
      else c :: pyReplaceAux pat new 0 rest

/-- Model of `filename.replace('.pdf', '').replace('.PDF', '')` from the
batch download handler (`download_all_pdfs`, src/app.py line 1367). -/
def strip_pdf (s : String) : String :=
  String.mk (pyReplaceAux ".PDF".data [] 0 (pyReplaceAux ".pdf".data [] 0 s.data))

/-- Model of `filename.replace('.pdf', '')` from the single package handler
(`download_package`, src/app.py line 1299): only the lowercase variant. -/
def strip_pdf_lower (s : String) : String :=
  String.mk (pyReplaceAux ".pdf".data [] 0 s.data)

/-- Modelled from the spec: a filename "with the extension stripped",
i.e. everything before the last dot (the name itself when it has no dot).
Used only to compare the spec's wording with what the code computes. -/
def stripExtSpec (s : String) : String :=
  if s.data.contains '.'
  then String.mk (((s.data.reverse.dropWhile (fun c => c ≠ '.')).drop 1).reverse)
  else s

/-- Model of Python `str.strip()`: drops whitespace from both ends. -/
def pyStrip (l : List Char) : List Char :=
  ((l.dropWhile Char.isWhitespace).reverse.dropWhile Char.isWhitespace).reverse

/-- Decimal digits of a natural number, least significant first, with
explicit fuel so that it is structurally recursive and kernel-evaluable. -/
def natStrGo : Nat → Nat → List Char
  | 0, _ => []
  | fuel+1, n =>
    if n < 10 then [Nat.digitChar n]
    else Nat.digitChar (n % 10) :: natStrGo fuel (n / 10)

/-- Model of Python `str(n)` for a natural number (decimal rendering). -/
def natStr (n : Nat) : String := String.mk (natStrGo (n+1) n).reverse

/-- Value of a little-endian list of digit characters; inverse of
`natStrGo`, used to prove `natStr` injective. -/
def digitsVal : List Char → Nat
  | [] => 0
  | c :: rest => (c.toNat - 48) + 10 * digitsVal rest

/-- Value of a list of decimal digit characters, most significant first;
`none` when the list is empty or holds a non-digit character. -/
def decDigits? : List Char → Option Nat :=
  fun l =>
    if l = [] then none
    else l.foldl (fun acc c =>
      match acc with
      | none => none
      | some n => if c.isDigit then some (n * 10 + (c.toNat - 48)) else none)
      (some 0)

/-- Model of Python `int(s)` on strings: optional sign then decimal
digits; raises (here: `none`) on anything else.  Only the facts that
numerals parse and non-numeric text fails are relied upon. -/
def pyInt (s : String) : Option Int :=
  match s.data with
  | '-' :: rest => (decDigits? rest).map (fun n => -(n : Int))
  | '+' :: rest => (decDigits? rest).map (fun n => (n : Int))
  | l => (decDigits? l).map (fun n => (n : Int))

/-- Candidate folder name tried by the collision loop of
`download_all_pdfs`: the base name for counter 0, `f"{base}_{counter}"`
for positive counters. -/
def candName (base : String) (k : Nat) : String :=
  base ++ "_" ++ natStr k

/-- The `while os.path.exists(...)` collision loop of `download_all_pdfs`
(src/app.py lines 1372-1376), with fuel making termination explicit:
starting from counter `k`, returns the first candidate suffix name not in
`names`.  The fuel chosen in `uniqueName` is always sufficient. -/
def uniqueNameGo (names : List String) (base : String) : Nat → Nat → String
  | 0, k => candName base k
  | fuel+1, k =>
    if candName base k ∈ names then uniqueNameGo names base fuel (k+1)
    else candName base k

/-- Folder-name selection of `download_all_pdfs`: the plain base name when
it is free, otherwise the first free `base_1`, `base_2`, ... -/
def uniqueName (names : List String) (base : String) : String :=
  if base ∈ names then uniqueNameGo names base (names.length + 1) 1 else base

/-- Collapse of consecutive duplicates in a list of statuses, giving the
sequence of distinct values a job's `status` field moves through. -/
def dedupConsec : List Status → List Status
  | [] => []
  | [a] => [a]
  | a :: b :: rest =>
    if a = b then dedupConsec (b :: rest) else a :: dedupConsec (b :: rest)

/-- Snapshots of the job record after each mutation performed by
`process_pdf_task` (src/app.py lines 1098-1137), in program order.  The
conversion oracle `res` is the outcome of the `parse_pdf` call: either
the `(content, image_paths)` pair or the exception's message. -/
def processSnapshots (j0 : Job) (filename output_dir : String)
    (res : Except String (String × List String)) : List Job :=
  let j1 := { j0 with status := Status.processing }
  let j2 := { j1 with message := "Converting PDF to Markdown..." }
  let j3 := { j2 with progress := 10 }
  let j4 := { j3 with filename := filename }
  let j5 := { j4 with progress := 30 }
  let j6 := { j5 with message := "Parsing PDF pages..." }
  match res with
  | .ok (_content, image_paths) =>
    let j7 := { j6 with progress := 90 }
    let j8 := { j7 with message := "Finalizing..." }
    let j9 := { j8 with status := Status.completed }
    let j10 := { j9 with progress := 100 }
    let j11 := { j10 with message := "Conversion complete!" }
    let j12 := { j11 with images := some image_paths }
    let j13 := { j12 with output_dir := some output_dir }
    [j1, j2, j3, j4, j5, j6, j7, j8, j9, j10, j11, j12, j13]
  | .error e =>
    let j7 := { j6 with status := Status.failed }
    let j8 := { j7 with error := some e }
    let j9 := { j8 with message := "Error: " ++ e }
    let j10 := { j9 with progress := 0 }
    [j1, j2, j3, j4, j5, j6, j7, j8, j9, j10]

/-- Final state of the job record after `process_pdf_task` returns. -/
def processFinal (j0 : Job) (filename output_dir : String)
    (res : Except String (String × List String)) : Job :=
  (processSnapshots j0 filename output_dir res).getLastD j0

/-- Effect of one `process_pdf_task` run on the whole registry.  The task
catches every exception from the conversion call, so it always returns;
its only write target is the entry under `job_id`. -/
def process_pdf_task (reg : Registry) (job_id : String)
    (filename output_dir : String)
    (res : Except String (String × List String)) : Registry :=
  match List.lookup job_id reg with
  | none => reg
  | some j0 => updateEntry reg job_id (processFinal j0 filename output_dir res)

/-- Sequence of values taken by the job's `status` field from creation
(`queued`, written by `upload_pdf`) through every write of the worker
task, one list element per snapshot. -/
def statusTrace (j0 : Job) (filename output_dir : String)
    (res : Except String (String × List String)) : List Status :=
  j0.status :: (processSnapshots j0 filename output_dir res).map (fun j => j.status)

/-- The `/status/batch` handler (src/app.py lines 1221-1235): collects the
records of the requested ids that are present, in request order. -/
def get_batch_status (reg : Registry) (job_ids : List String) : List Job :=
  match job_ids with
  | [] => []
  | id :: rest =>
    match List.lookup id reg with
    | some j => j :: get_batch_status reg rest
    | none => get_batch_status reg rest

/-- Outcome of an HTTP download handler: an error response with its body
text and status code, an uncaught exception propagating to the framework,
or a served file. -/
inductive HttpResult where
  | clientError (body : String) (code : Nat)
  | exception (msg : String)
  | fileContent (content : String)
deriving DecidableEq, Repr

/-- The `/download/<job_id>/markdown` handler (src/app.py lines
1255-1271). -/
def download_markdown (reg : Registry) (fs : FS) (job_id : String) : HttpResult :=
  match List.lookup job_id reg with
  | none => .clientError "Job not found" 404
  | some status =>
    if status.status ≠ Status.completed then .clientError "Job not completed" 400
    else
      match status.output_dir with
      | none => .exception "KeyError: output_dir"
      | some od =>
        match fsLookup fs (pathJoin od "output.md") with
        | none => .clientError "Markdown file not found" 404
        | some c => .fileContent c

/-- The `/download/<job_id>/image/<image_name>` handler (src/app.py lines
1274-1285); `send_from_directory` serves the named file from the job's
output directory or answers 404 when it is absent. -/
def download_image (reg : Registry) (fs : FS) (job_id image_name : String) : HttpResult :=
  match List.lookup job_id reg with
  | none => .clientError "Job not found" 404
  | some status =>
    if status.status ≠ Status.completed then .clientError "Job not completed" 400
    else
      match status.output_dir with
      | none => .exception "KeyError: output_dir"
      | some od =>
        match fsLookup fs (pathJoin od image_name) with
        | none => .clientError "Not Found" 404
        | some c => .fileContent c

/-- Outcome of the single-package builder `/download/<job_id>/package`:
the archive is the list of (relative path, content) pairs staged before
zipping. -/
inductive PkgResult where
  | notFound
  | notCompleted
  | exception (msg : String)
  | zipFile (entries : List (String × String)) (download_name : String)
deriving DecidableEq, Repr

/-- The `/download/<job_id>/package` handler (src/app.py lines 1288-1331).
`archive_raises` is the oracle for `shutil.make_archive` failing; the
Boolean in the result records whether the staging directory
`{job_id}_package` is still on disk when the handler returns (there is no
try/finally around the staging steps in the source). -/
def download_package (reg : Registry) (fs : FS) (job_id : String)
    (archive_raises : Bool) : PkgResult × Bool :=
  match List.lookup job_id reg with
  | none => (.notFound, false)
  | some status =>
    if status.status ≠ Status.completed then (.notCompleted, false)
    else
      match status.output_dir with
      | none => (.exception "KeyError: output_dir", false)
      | some output_dir =>
        let filename := strip_pdf_lower status.filename
        let mdEntries :=
          match fsLookup fs (pathJoin output_dir "output.md") with
          | some c => [(filename ++ ".md", c)]
          | none => []
        let imgEntries :=
          match status.images with
          | none => []
          | some imgs =>
            imgs.foldl (fun acc img =>
              match fsLookup fs (pathJoin output_dir img) with
              | some c => acc ++ [(pathJoin "images" img, c)]
              | none => acc) []
        if archive_raises then (.exception "make_archive failed", true)
        else (.zipFile (mdEntries ++ imgEntries) (filename ++ "_complete.zip"), false)

/-- Staging state accumulated by the loop of `download_all_pdfs`:
`names` are the top-level folder names existing in the batch staging
directory (checked by the collision loop), `entries` the files copied so
far as (path relative to the staging dir, content), `processed` the
`processed_count` counter. -/
structure BatchState where
  names : List String
  entries : List (String × String)
  processed : Nat
deriving DecidableEq, Repr

/-- Body of the `for job_id in job_ids` loop of `download_all_pdfs`
(src/app.py lines 1350-1404) for one raw id.  An `Except.error` models an
uncaught exception (`status['output_dir']` on a record missing that key). -/
def processOneJob (fs : FS) (reg : Registry) (st : BatchState) (rawId : String) :
    Except String BatchState :=
  let job_id := String.mk (pyStrip rawId.data)
  if job_id = "" then .ok st
  else
    match List.lookup job_id reg with
    | none => .ok st
    | some j =>
      if j.status ≠ Status.completed then .ok st
      else
        match j.output_dir with
        | none => .error "KeyError: output_dir"
        | some output_dir =>
          let base := strip_pdf j.filename
          let folder := uniqueName st.names base
          let names' := folder :: st.names
          let md_src := pathJoin output_dir "output.md"
          let stepMd :=
            match fsLookup fs md_src with
            | some c => ((pathJoin folder (base ++ ".md"), c) :: st.entries, st.processed + 1)
            | none => (st.entries, st.processed)
          let entries' :=
            match j.images with
            | none => stepMd.1
            | some imgs =>
              imgs.foldl (fun acc img =>
                match fsLookup fs (pathJoin output_dir img) with
                | some c => (pathJoin folder (pathJoin "images" img), c) :: acc
                | none => acc) stepMd.1
          .ok { names := names', entries := entries', processed := stepMd.2 }

/-- The whole per-id loop of `download_all_pdfs`. -/
def processJobs (fs : FS) (reg : Registry) : List String → BatchState → Except String BatchState
  | [], st => .ok st
  | id :: rest, st =>
    match processOneJob fs reg st id with
    | .ok st' => processJobs fs reg rest st'
    | .error e => .error e

/-- Outcome of the batch download `/download/all`: the 400 "No jobs
specified" answer, the 404 "No completed PDFs found to download" answer
(the Empty signal), a 500 answer from the catch-all `except`, or the
archive with its top-level folders, staged files and `processed_count`. -/
inductive BatchResult where
  | noJobs
  | empty
  | serverError (msg : String)
  | archive (dirs : List String) (files : List (String × String)) (count : Nat)
deriving DecidableEq, Repr

/-- The `/download/all` handler (src/app.py lines 1334-1427).  `job_ids`
is the comma-split query parameter; `archive_raises` the oracle for
`shutil.make_archive` failing.  The Boolean in the result records whether
the staging directory `batch_{id}` is still on disk when the handler
returns: the source removes it only after a successful zip or on the
empty path, while the catch-all `except` answers 500 without removing it. -/
def download_all_pdfs (reg : Registry) (fs : FS) (job_ids : List String)
    (archive_raises : Bool) : BatchResult × Bool :=
  if job_ids = [] ∨ job_ids = [""] then (.noJobs, false)
  else
    match processJobs fs reg job_ids ⟨[], [], 0⟩ with
    | .error e => (.serverError e, true)
    | .ok st =>
      if st.processed = 0 then (.empty, false)
      else if archive_raises then (.serverError "make_archive failed", true)
      else (.archive st.names st.entries st.processed, false)

/-- Form fields of a `/upload` request; `none` models an absent field
(for `pdfs`, the key missing from `request.files`). -/
structure UploadForm where
  pdfs : Option (List String)
  api_key : Option String
  base_url : Option String
  model : Option String
  gpt_worker : Option String
  max_parallel : Option String
deriving DecidableEq, Repr

/-- Argument tuple handed to `pdf_executor.submit` for one job
(src/app.py lines 1200-1203).  `max_parallel` is not among them. -/
structure SubmittedTask where
  job_id : String
  pdf_path : String
  filename : String
  api_key : String
  base_url : Option String
  model : String
  gpt_worker : Int
  output_dir : String
deriving DecidableEq, Repr

/-- JSON answer of the `/upload` handler. -/
inductive UploadResponse where
  | failure (error : String)
  | success (job_ids : List String) (count : Nat)
deriving DecidableEq, Repr

/-- Parse of the `gpt_worker` field: `int(request.form.get('gpt_worker', 1))`. -/
def parse_gpt_worker (o : Option String) : Option Int :=
  match o with
  | none => some 1
  | some s => pyInt s

/-- Parse of the `max_parallel` field: `int(request.form.get('max_parallel', 3))`. -/
def parse_max_parallel (o : Option String) : Option Int :=
  match o with
  | none => some 3
  | some s => pyInt s

/-- Per-file loop of `upload_pdf` (src/app.py lines 1171-1203): skips
files with empty names, assigns the next fresh id, saves the upload,
creates the `queued` registry entry and submits the worker task.
`fresh k` is the model of the `uuid.uuid4()` draw number `k`. -/
def uploadLoop (reg : Registry) (sanitize : String → String)
    (files : List String) (fresh : Nat → String) (k : Nat) (now : String)
    (api_key : String) (base_url : Option String) (model : String) (gpt_worker : Int)
    (acc_ids : List String) (acc_tasks : List SubmittedTask) :
    Registry × List SubmittedTask × UploadResponse :=
  match files with
  | [] => (reg, acc_tasks, .success acc_ids acc_ids.length)
  | f :: rest =>
    if f = "" then
      uploadLoop reg sanitize rest fresh k now api_key base_url model gpt_worker
        acc_ids acc_tasks
    else
      let job_id := fresh k
      let filename := sanitize f
      let pdf_path := pathJoin "uploads" (job_id ++ "_" ++ filename)
      let output_dir := pathJoin "outputs" job_id
      let job : Job :=
        { job_id := job_id, status := Status.queued, progress := 0,
          message := "Queued...", error := none, pdf_path := pdf_path,
          filename := filename, created_at := now, images := none,
          output_dir := none }
      let task : SubmittedTask :=
        { job_id := job_id, pdf_path := pdf_path, filename := filename,
          api_key := api_key, base_url := base_url, model := model,
          gpt_worker := gpt_worker, output_dir := output_dir }
      uploadLoop (reg ++ [(job_id, job)]) sanitize rest fresh (k+1) now
        api_key base_url model gpt_worker (acc_ids ++ [job_id]) (acc_tasks ++ [task])

/-- The `/upload` handler (src/app.py lines 1146-1208): field validation
in source order, then the per-file loop.  A `ValueError` from either
`int(...)` call is caught by the catch-all `except` and turned into a
failure response before any job is created. -/
def upload_pdf (reg : Registry) (sanitize : String → String) (form : UploadForm)
    (fresh : Nat → String) (k : Nat) (now : String) :
    Registry × List SubmittedTask × UploadResponse :=
  match form.pdfs with
  | none => (reg, [], .failure "No PDF files provided")
  | some files =>
    if files = [] ∨ files.head? = some "" then (reg, [], .failure "No files selected")
    else if form.api_key = none ∨ form.api_key = some "" then
      (reg, [], .failure "API key is required")
    else
      let api_key := (form.api_key).getD ""
      let base_url := form.base_url
      let model := (form.model).getD "gpt-4o"
      match parse_gpt_worker form.gpt_worker with
      | none => (reg, [], .failure "invalid literal for int() with base 10: gpt_worker")
      | some gpt_worker =>
        match parse_max_parallel form.max_parallel with
        | none => (reg, [], .failure "invalid literal for int() with base 10: max_parallel")
        | some _max_parallel =>
          uploadLoop reg sanitize files fresh k now api_key base_url model gpt_worker [] []

/-- Size of the worker pool:
`concurrent.futures.ThreadPoolExecutor(max_workers=5)` (src/app.py line 30). -/
def pdf_executor_max_workers : Nat := 5

/-- One worker task as scheduled by the pool: the id of the job it owns
and the registry snapshots it still has to write, in order. -/
structure WTask where
  id : String
  writes : List Job
deriving DecidableEq, Repr

/-- State of the worker pool together with the registry: tasks submitted
but not yet started (the executor's unbounded queue, FIFO), and tasks
currently occupying one of the execution slots. -/
structure PoolState where
  reg : Registry
  pending : List WTask
  running : List WTask

/-- Interleaved small-step semantics of the pool, based on the
`ThreadPoolExecutor(max_workers=5)` contract: at most 5 tasks hold a slot
at once; a submission registers the `queued` job and enqueues its task;
each running task performs its registry writes one at a time; a task
leaves its slot when its writes are exhausted. -/
inductive PoolStep : PoolState → PoolState → Prop
  | submit (s : PoolState) (j0 : Job) (filename output_dir : String)
      (res : Except String (String × List String))
      (hfresh : List.lookup j0.job_id s.reg = none)
      (hq : j0.status = Status.queued) :
      PoolStep s
        { reg := s.reg ++ [(j0.job_id, j0)],
          pending := s.pending ++ [⟨j0.job_id, processSnapshots j0 filename output_dir res⟩],
          running := s.running }
  | start (s : PoolState) (t : WTask) (rest : List WTask)
      (hcap : s.running.length < pdf_executor_max_workers)
      (hq : s.pending = t :: rest) :
      PoolStep s { reg := s.reg, pending := rest, running := t :: s.running }
  | write (s : PoolState) (t : WTask) (w : Job) (ws : List Job)
      (hmem : t ∈ s.running) (hw : t.writes = w :: ws) :
      PoolStep s
        { reg := updateEntry s.reg t.id w,
          pending := s.pending,
          running := ⟨t.id, ws⟩ :: s.running.erase t }
  | finish (s : PoolState) (t : WTask)
      (hmem : t ∈ s.running) (hdone : t.writes = []) :
      PoolStep s { reg := s.reg, pending := s.pending, running := s.running.erase t }

/-- States reachable from the empty system (no jobs, no tasks). -/
inductive PoolReachable : PoolState → Prop
  | init : PoolReachable ⟨[], [], []⟩
  | step {s s' : PoolState} : PoolReachable s → PoolStep s s' → PoolReachable s'

/-- Number of registry entries whose status is `processing`. -/
def processingCount (reg : Registry) : Nat :=
  List.countP (fun p => p.2.status = Status.processing) reg

/-- Containment of `sub` in `s` as a contiguous substring, on the
underlying character lists. -/
abbrev strContains (s sub : String) : Prop := sub.data <:+: s.data

/-- A registry is key-consistent when every `completed` entry carries its
`output_dir` key, as every entry written by `process_pdf_task` does. -/
def completedHasOutputDir (reg : Registry) : Prop :=
  ∀ id j, List.lookup id reg = some j → j.status = Status.completed →
    j.output_dir ≠ none

/-- Concrete sample: a freshly created entry, as `upload_pdf` writes it. -/
def sampleQueued : Job :=
  { job_id := "j1", status := Status.queued, progress := 0,
    message := "Queued...", error := none,
    pdf_path := "uploads/j1_doc.pdf", filename := "doc.pdf",
    created_at := "2026-01-01T00:00:00", images := none, output_dir := none }

/-- Concrete sample: a completed entry with one artifact. -/
def sampleCompleted : Job :=
  { job_id := "j1", status := Status.completed, progress := 100,
    message := "Conversion complete!", error := none,
    pdf_path := "uploads/j1_doc.pdf", filename := "doc.pdf",
    created_at := "2026-01-01T00:00:00", images := some ["img1.png"],
    output_dir := some "outputs/j1" }

/-- Concrete sample: an entry still in `processing`. -/
def sampleProcessing : Job :=
  { job_id := "j2", status := Status.processing, progress := 30,
    message := "Parsing PDF pages...", error := none,
    pdf_path := "uploads/j2_doc.pdf", filename := "doc.pdf",
    created_at := "2026-01-01T00:00:01", images := none, output_dir := none }

/-- Concrete sample: a completed entry whose filename holds `.pdf` also in
the middle of the name. -/
def sampleCompletedOdd : Job :=
  { job_id := "j3", status := Status.completed, progress := 100,
    message := "Conversion complete!", error := none,
    pdf_path := "uploads/j3_a.pdfb.pdf", filename := "a.pdfb.pdf",
    created_at := "2026-01-01T00:00:02", images := none,
    output_dir := some "outputs/j3" }

/-- Concrete sample: a second completed entry with the same filename as
`sampleCompleted`, for the collision scenario. -/
def sampleCompletedTwin : Job :=
  { job_id := "j4", status := Status.completed, progress := 100,
    message := "Conversion complete!", error := none,
    pdf_path := "uploads/j4_doc.pdf", filename := "doc.pdf",
    created_at := "2026-01-01T00:00:03", images := none,
    output_dir := some "outputs/j4" }

/-- Concrete sample filesystem holding both jobs' content files and the
artifact of `sampleCompleted`. -/
def sampleFS : FS :=
  [("outputs/j1/output.md", "# Title"),
   ("outputs/j1/img1.png", "PNG1"),
   ("outputs/j1/other.png", "PNG2"),
   ("outputs/j3/output.md", "# Odd"),
   ("outputs/j4/output.md", "# Twin")]

/-- Qualification of one raw requested id for the batch package, as the
code decides it: after stripping, the id is non-empty, present in the
registry, `completed`, carries its output directory, and that directory's
`output.md` exists on disk.  `processed_count` counts exactly these ids. -/
def qualifiesMd (reg : Registry) (fs : FS) (rawId : String) : Bool :=
  let job_id := String.mk (pyStrip rawId.data)
  if job_id = "" then false
  else
    match List.lookup job_id reg with
    | none => false
    | some j =>
      if j.status = Status.completed then
        match j.output_dir with
        | none => false
        | some od => (fsLookup fs (pathJoin od "output.md")).isSome
      else false

/-- Invariant of the pool transition system: the slot bound, distinct task
ids, every task owning a registered job, distinct registry keys, every
non-empty script ending in a terminal write, and every `processing` entry
being owned by a running task that still has writes to perform. -/
def poolInv (s : PoolState) : Prop :=
  s.running.length ≤ pdf_executor_max_workers
  ∧ ((s.pending ++ s.running).map WTask.id).Nodup
  ∧ (∀ t ∈ s.pending ++ s.running, (List.lookup t.id s.reg).isSome = true)
  ∧ (s.reg.map Prod.fst).Nodup
  ∧ (∀ t ∈ s.pending ++ s.running, t.writes ≠ [] →
      ∃ w, t.writes.getLast? = some w ∧
        (w.status = Status.completed ∨ w.status = Status.failed))
  ∧ (∀ p ∈ s.reg, p.2.status = Status.processing →
      ∃ t ∈ s.running, t.id = p.1 ∧ t.writes ≠ [])

/-- Concrete sample: a well-formed upload request form. -/
def formOk : UploadForm :=
  { pdfs := some ["doc.pdf"], api_key := some "k", base_url := none,
    model := none, gpt_worker := none, max_parallel := some "3" }

/-- Concrete sample: the same form with a non-numeric `max_parallel`. -/
def formBad : UploadForm :=
  { pdfs := some ["doc.pdf"], api_key := some "k", base_url := none,
    model := none, gpt_worker := none, max_parallel := some "x" }

/-! ## Registry lemmas -/

theorem updateEntry_cons_self (a : String) (b j' : Job) (rest : Registry) :
    updateEntry ((a, b) :: rest) a j' = (a, j') :: updateEntry rest a j' := by
  unfold updateEntry
  rw [List.map_cons]
  congr 1
  exact if_pos rfl

theorem updateEntry_cons_ne (a id : String) (b j' : Job) (rest : Registry)
    (h : a ≠ id) :
    updateEntry ((a, b) :: rest) id j' = (a, b) :: updateEntry rest id j' := by
  unfold updateEntry
  rw [List.map_cons]
  congr 1
  exact if_neg h

theorem lookup_updateEntry_self (reg : Registry) (id : String) (j0 j' : Job)
    (h : List.lookup id reg = some j0) :
    List.lookup id (updateEntry reg id j') = some j' := by
  induction reg with
  | nil => simp [List.lookup] at h
  | cons p rest ih =>
    obtain ⟨a, b⟩ := p
    by_cases hp : a = id
    · subst hp
      rw [updateEntry_cons_self]
      simp [List.lookup]
    · have hne : (id == a) = false := by
        simp only [beq_eq_false_iff_ne, ne_eq]
        exact fun he => hp he.symm
      rw [updateEntry_cons_ne a id b j' rest hp]
      simp only [List.lookup, hne] at h ⊢
      exact ih h

theorem lookup_updateEntry_ne (reg : Registry) (id id' : String) (j' : Job)
    (h : id' ≠ id) :
    List.lookup id' (updateEntry reg id j') = List.lookup id' reg := by
  induction reg with
  | nil => simp [updateEntry]
  | cons p rest ih =>
    obtain ⟨a, b⟩ := p
    by_cases hp : a = id
    · subst hp
      have hne : (id' == a) = false := by simpa [beq_eq_false_iff_ne] using h
      rw [updateEntry_cons_self]
      simp only [List.lookup, hne]
      exact ih
    · rw [updateEntry_cons_ne a id b j' rest hp]
      cases hb : (id' == a) with
      | true => simp only [List.lookup, hb]
      | false =>
        simp only [List.lookup, hb]
        exact ih

/-! ## C4: worker-task execution protocol -/

/-- C4: for every job executed by the worker pool, the task first sets the
status to `processing` with progress 10, then progress 30; on a successful
conversion it sets progress 90 and then status `completed` with progress
100 and artifacts equal to the names returned by the engine; on a raised
conversion it sets status `failed`, progress 0 and an `error` field equal
to the cause, with a message containing the cause; in both cases the task
returns normally and every other registry entry is untouched. -/
theorem process_pdf_task_protocol (reg : Registry) (job_id filename output_dir : String)
    (j0 : Job) (res : Except String (String × List String))
    (h : List.lookup job_id reg = some j0) :
    (∃ j', (processSnapshots j0 filename output_dir res)[2]? = some j' ∧
        j'.status = Status.processing ∧ j'.progress = 10)
    ∧ (∃ j', (processSnapshots j0 filename output_dir res)[4]? = some j' ∧
        j'.status = Status.processing ∧ j'.progress = 30)
    ∧ (∀ content imgs, res = Except.ok (content, imgs) →
        (∃ j', (processSnapshots j0 filename output_dir res)[6]? = some j' ∧
            j'.status = Status.processing ∧ j'.progress = 90)
        ∧ List.lookup job_id (process_pdf_task reg job_id filename output_dir res)
            = some (processFinal j0 filename output_dir res)
        ∧ (processFinal j0 filename output_dir res).status = Status.completed
        ∧ (processFinal j0 filename output_dir res).progress = 100
        ∧ (processFinal j0 filename output_dir res).images = some imgs)
    ∧ (∀ e, res = Except.error e →
        List.lookup job_id (process_pdf_task reg job_id filename output_dir res)
            = some (processFinal j0 filename output_dir res)
        ∧ (processFinal j0 filename output_dir res).status = Status.failed
        ∧ (processFinal j0 filename output_dir res).progress = 0
        ∧ (processFinal j0 filename output_dir res).error = some e
        ∧ strContains (processFinal j0 filename output_dir res).message e)
    ∧ (∀ id', id' ≠ job_id →
        List.lookup id' (process_pdf_task reg job_id filename output_dir res)
            = List.lookup id' reg) := by
  refine ⟨?_, ?_, ?_, ?_, ?_⟩
  · cases res with
    | ok p => exact ⟨_, rfl, rfl, rfl⟩
    | error e => exact ⟨_, rfl, rfl, rfl⟩
  · cases res with
    | ok p => exact ⟨_, rfl, rfl, rfl⟩
    | error e => exact ⟨_, rfl, rfl, rfl⟩
  · rintro content imgs rfl
    refine ⟨⟨_, rfl, rfl, rfl⟩, ?_, rfl, rfl, rfl⟩
    simp only [process_pdf_task, h]
    exact lookup_updateEntry_self reg job_id j0 _ h
  · rintro e rfl
    refine ⟨?_, rfl, rfl, rfl, ?_⟩
    · simp only [process_pdf_task, h]
      exact lookup_updateEntry_self reg job_id j0 _ h
    · show e.data <:+: ("Error: " ++ e).data
      rw [String.data_append]
      exact (List.suffix_append _ _).isInfix
  · intro id' hne
    simp only [process_pdf_task, h]
    exact lookup_updateEntry_ne reg job_id id' _ hne

/-- Witness for C4 at a concrete failing conversion. -/
theorem process_pdf_task_protocol_witness :
    (processFinal sampleQueued "doc.pdf" "outputs/j1" (Except.error "boom")).status
        = Status.failed
    ∧ (processFinal sampleQueued "doc.pdf" "outputs/j1" (Except.error "boom")).error
        = some "boom"
    ∧ List.lookup "j1"
        (process_pdf_task [("j1", sampleQueued)] "j1" "doc.pdf" "outputs/j1"
          (Except.error "boom"))
        = some (processFinal sampleQueued "doc.pdf" "outputs/j1" (Except.error "boom")) := by
  have hmain := process_pdf_task_protocol [("j1", sampleQueued)] "j1" "doc.pdf" "outputs/j1"
    sampleQueued (Except.error "boom") rfl
  obtain ⟨hlook, hst, hpr, herr, hmsg⟩ := hmain.2.2.2.1 "boom" rfl
  exact ⟨hst, herr, hlook⟩

/-! ## C5: status state machine -/

theorem uploadLoop_mem (sanitize : String → String) (fresh : Nat → String)
    (now api_key : String) (base_url : Option String) (model : String) (gpt_worker : Int) :
    ∀ (files : List String) (reg : Registry) (k : Nat)
      (acc_ids : List String) (acc_tasks : List SubmittedTask) (p : String × Job),
      p ∈ (uploadLoop reg sanitize files fresh k now api_key base_url model gpt_worker
            acc_ids acc_tasks).1 →
      p ∈ reg ∨ p.2.status = Status.queued := by
  intro files
  induction files with
  | nil =>
    intro reg k acc_ids acc_tasks p hp
    simp only [uploadLoop] at hp
    exact Or.inl hp
  | cons f rest ih =>
    intro reg k acc_ids acc_tasks p hp
    by_cases hf : f = ""
    · rw [uploadLoop, if_pos hf] at hp
      exact ih reg k acc_ids acc_tasks p hp
    · rw [uploadLoop, if_neg hf] at hp
      rcases ih _ _ _ _ p hp with hmem | hq
      · rcases List.mem_append.mp hmem with hl | hr
        · exact Or.inl hl
        · simp only [List.mem_singleton] at hr
          subst hr
          exact Or.inr rfl
      · exact Or.inr hq

theorem upload_pdf_creates_queued (reg : Registry) (sanitize : String → String)
    (form : UploadForm) (fresh : Nat → String) (k : Nat) (now : String)
    (p : String × Job) (hp : p ∈ (upload_pdf reg sanitize form fresh k now).1) :
    p ∈ reg ∨ p.2.status = Status.queued := by
  unfold upload_pdf at hp
  rcases form with ⟨pdfs, api_key, base_url, model, gpt_worker, max_parallel⟩
  cases pdfs with
  | none => exact Or.inl hp
  | some files =>
    simp only at hp
    by_cases h1 : files = [] ∨ files.head? = some ""
    · rw [if_pos h1] at hp; exact Or.inl hp
    · rw [if_neg h1] at hp
      by_cases h2 : api_key = none ∨ api_key = some ""
      · rw [if_pos h2] at hp; exact Or.inl hp
      · rw [if_neg h2] at hp
        cases hgw : parse_gpt_worker gpt_worker with
        | none => simp only [hgw] at hp; exact Or.inl hp
        | some gw =>
          simp only [hgw] at hp
          cases hmp : parse_max_parallel max_parallel with
          | none => simp only [hmp] at hp; exact Or.inl hp
          | some mp =>
            simp only [hmp] at hp
            exact uploadLoop_mem sanitize fresh now _ base_url _ gw files reg k [] [] p hp

/-- C5: the sequence of `status` values a job takes on, from its creation
by the submission handler through every write of its worker task, is
exactly `queued, processing, completed` or `queued, processing, failed`
(after collapsing consecutive repeats); no later write changes a value
that is already `completed` or `failed`; and every entry the submission
handler adds to the registry starts in `queued`. -/
theorem statusTrace_valid (j0 : Job) (filename output_dir : String)
    (res : Except String (String × List String)) (h : j0.status = Status.queued) :
    (dedupConsec (statusTrace j0 filename output_dir res)
        = [Status.queued, Status.processing, Status.completed]
     ∨ dedupConsec (statusTrace j0 filename output_dir res)
        = [Status.queued, Status.processing, Status.failed])
    ∧ List.Pairwise (fun a b => (a = Status.completed ∨ a = Status.failed) → b = a)
        (statusTrace j0 filename output_dir res)
    ∧ (∀ (reg : Registry) (sanitize : String → String) (form : UploadForm)
        (fresh : Nat → String) (k : Nat) (now : String) (p : String × Job),
        p ∈ (upload_pdf reg sanitize form fresh k now).1 →
        p ∈ reg ∨ p.2.status = Status.queued) := by
  refine ⟨?_, ?_, fun reg sanitize form fresh k now p hp =>
    upload_pdf_creates_queued reg sanitize form fresh k now p hp⟩
  · cases res with
    | ok pr =>
      left
      obtain ⟨content, imgs⟩ := pr
      simp only [statusTrace, processSnapshots, List.map, h, dedupConsec]
      decide
    | error e =>
      right
      simp only [statusTrace, processSnapshots, List.map, h, dedupConsec]
      decide
  · cases res with
    | ok pr =>
      obtain ⟨content, imgs⟩ := pr
      simp only [statusTrace, processSnapshots, List.map, h]
      decide
    | error e =>
      simp only [statusTrace, processSnapshots, List.map, h]
      decide

/-- Witness for C5 at a concrete successful conversion. -/
theorem statusTrace_valid_witness :
    dedupConsec (statusTrace sampleQueued "doc.pdf" "outputs/j1"
        (Except.ok ("content", ["img1.png"])))
      = [Status.queued, Status.processing, Status.completed]
    ∨ dedupConsec (statusTrace sampleQueued "doc.pdf" "outputs/j1"
        (Except.ok ("content", ["img1.png"])))
      = [Status.queued, Status.processing, Status.failed] :=
  (statusTrace_valid sampleQueued "doc.pdf" "outputs/j1"
    (Except.ok ("content", ["img1.png"])) rfl).1

/-! ## C6: batch status query -/

/-- C6: the batch status query answers, for any mix of known and unknown
ids, exactly the records of the ids present in the registry: a present id
contributes its record, an unknown id contributes nothing and raises no
error, and the answer for a concatenation of requests is the concatenation
of the answers, so the records appear in the order requested. -/
theorem get_batch_status_spec (reg : Registry) :
    (∀ id j, List.lookup id reg = some j → get_batch_status reg [id] = [j])
    ∧ (∀ id, List.lookup id reg = none → get_batch_status reg [id] = [])
    ∧ (∀ l1 l2, get_batch_status reg (l1 ++ l2)
        = get_batch_status reg l1 ++ get_batch_status reg l2) := by
  refine ⟨?_, ?_, ?_⟩
  · intro id j h
    simp [get_batch_status, h]
  · intro id h
    simp [get_batch_status, h]
  · intro l1 l2
    induction l1 with
    | nil => simp [get_batch_status]
    | cons id rest ih =>
      simp only [List.cons_append, get_batch_status]
      cases List.lookup id reg with
      | none => exact ih
      | some j => simp [ih]

/-- Witness for C6: a request mixing one known and one unknown id. -/
theorem get_batch_status_spec_witness :
    get_batch_status [("j1", sampleCompleted)] ["j1"] = [sampleCompleted]
    ∧ get_batch_status [("j1", sampleCompleted)] ["zz"] = [] :=
  ⟨(get_batch_status_spec [("j1", sampleCompleted)]).1 "j1" sampleCompleted rfl,
   (get_batch_status_spec [("j1", sampleCompleted)]).2.1 "zz" rfl⟩

/-! ## C7: markdown download gating -/

/-- C7 (amended): the markdown download answers a 404 "Job not found"
client error when the id is absent, a 400 "Job not completed" client
error (a fixed body, which does not quote the job's current status) when
the job exists but is not `completed`, and serves file content only for a
`completed` job whose content file exists on disk. -/
theorem download_markdown_spec (reg : Registry) (fs : FS) (job_id : String) :
    (List.lookup job_id reg = none →
      download_markdown reg fs job_id = HttpResult.clientError "Job not found" 404)
    ∧ (∀ j, List.lookup job_id reg = some j → j.status ≠ Status.completed →
      download_markdown reg fs job_id = HttpResult.clientError "Job not completed" 400)
    ∧ (∀ c, download_markdown reg fs job_id = HttpResult.fileContent c →
      ∃ j od, List.lookup job_id reg = some j ∧ j.status = Status.completed
        ∧ j.output_dir = some od ∧ fsLookup fs (pathJoin od "output.md") = some c) := by
  refine ⟨?_, ?_, ?_⟩
  · intro h
    simp [download_markdown, h]
  · intro j h hne
    simp [download_markdown, h, hne]
  · intro c h
    unfold download_markdown at h
    split at h
    next hl => exact absurd h (by simp)
    next j hl =>
      split at h
      next hne => exact absurd h (by simp)
      next hne =>
        push_neg at hne
        split at h
        next hod => exact absurd h (by simp)
        next od hod =>
          split at h
          next hmd => exact absurd h (by simp)
          next c' hmd =>
            simp only [HttpResult.fileContent.injEq] at h
            subst h
            exact ⟨j, od, hl, hne, hod, hmd⟩

/-- Witness for C7 (amended) at concrete absent and not-ready jobs. -/
theorem download_markdown_spec_witness :
    download_markdown [("j2", sampleProcessing)] [] "zz"
      = HttpResult.clientError "Job not found" 404
    ∧ download_markdown [("j2", sampleProcessing)] [] "j2"
      = HttpResult.clientError "Job not completed" 400 :=
  ⟨(download_markdown_spec [("j2", sampleProcessing)] [] "zz").1 rfl,
   (download_markdown_spec [("j2", sampleProcessing)] [] "j2").2.1 sampleProcessing rfl
     (by decide)⟩

/-- C7 counterexample: for a job in `processing`, the not-ready answer is
the fixed body "Job not completed"; the job's current status does not
occur in it, against the claim that the error includes the status. -/
theorem download_markdown_body_lacks_status :
    download_markdown [("j2", sampleProcessing)] [] "j2"
      = HttpResult.clientError "Job not completed" 400
    ∧ sampleProcessing.status = Status.processing
    ∧ ¬ strContains "Job not completed" (Status.processing.str) := by
  refine ⟨rfl, rfl, by decide⟩

/-! ## C9: artifact download ignores the artifacts list -/

/-- C9: for a completed job, the single-artifact download serves any file
of the requested name that exists in the job's output directory, and the
answer is unchanged under any replacement of the job's recorded artifacts
list — membership of the name in that list is never consulted. -/
theorem download_image_ignores_artifact_list (reg : Registry) (fs : FS)
    (job_id image_name : String) (j : Job) (od c : String)
    (hl : List.lookup job_id reg = some j)
    (hs : j.status = Status.completed)
    (hod : j.output_dir = some od)
    (hc : fsLookup fs (pathJoin od image_name) = some c) :
    download_image reg fs job_id image_name = HttpResult.fileContent c
    ∧ ∀ imgs' : Option (List String),
        download_image (updateEntry reg job_id { j with images := imgs' }) fs
          job_id image_name = HttpResult.fileContent c := by
  constructor
  · simp [download_image, hl, hs, hod, hc]
  · intro imgs'
    have hl' : List.lookup job_id (updateEntry reg job_id { j with images := imgs' })
        = some { j with images := imgs' } :=
      lookup_updateEntry_self reg job_id j _ hl
    simp only [download_image, hl']
    simp [hs, hod, hc]

/-- Witness for C9: the requested name exists on disk but is not in the
job's recorded artifacts list, and is served all the same. -/
theorem download_image_ignores_artifact_list_witness :
    download_image [("j1", sampleCompleted)] sampleFS "j1" "other.png"
      = HttpResult.fileContent "PNG2"
    ∧ sampleCompleted.images = some ["img1.png"]
    ∧ "other.png" ∉ ["img1.png"] :=
  ⟨(download_image_ignores_artifact_list [("j1", sampleCompleted)] sampleFS "j1"
      "other.png" sampleCompleted "outputs/j1" "PNG2" rfl rfl rfl rfl).1,
   rfl, by decide⟩

/-! ## Decimal rendering and the collision loop -/

theorem digitChar_val (n : Nat) (h : n < 10) : (Nat.digitChar n).toNat - 48 = n := by
  interval_cases n <;> rfl

theorem natStrGo_val : ∀ (fuel n : Nat), n < fuel → digitsVal (natStrGo fuel n) = n := by
  intro fuel
  induction fuel with
  | zero => intro n h; omega
  | succ fuel ih =>
    intro n h
    unfold natStrGo
    by_cases h10 : n < 10
    · rw [if_pos h10]
      simp [digitsVal, digitChar_val n h10]
    · rw [if_neg h10]
      simp only [digitsVal]
      have hpos : 0 < n := by omega
      have hlt : n / 10 < fuel := by
        have h1 : n / 10 < n := Nat.div_lt_self hpos (by norm_num)
        omega
      rw [ih (n / 10) hlt, digitChar_val (n % 10) (Nat.mod_lt n (by norm_num))]
      omega

theorem dataInj (s t : String) (h : s.data = t.data) : s = t := by
  cases s; cases t; cases h; rfl

theorem natStr_inj (m n : Nat) (h : natStr m = natStr n) : m = n := by
  unfold natStr at h
  have hd : (natStrGo (m+1) m).reverse = (natStrGo (n+1) n).reverse :=
    congrArg String.data h
  have h2 : natStrGo (m+1) m = natStrGo (n+1) n := by
    have := congrArg List.reverse hd
    simpa using this
  have hm := natStrGo_val (m+1) m (by omega)
  rw [← hm, h2, natStrGo_val (n+1) n (by omega)]

theorem candName_inj (base : String) (i j : Nat) (h : candName base i = candName base j) :
    i = j := by
  unfold candName at h
  have hd := congrArg String.data h
  rw [String.data_append, String.data_append, String.data_append, String.data_append] at hd
  have h2 := List.append_cancel_left hd
  exact natStr_inj i j (dataInj _ _ h2)

theorem natStr_data_ne_nil (n : Nat) : (natStr n).data ≠ [] := by
  show (natStrGo (n+1) n).reverse ≠ []
  unfold natStrGo
  by_cases h : n < 10 <;> simp [h]

theorem candName_ne_base (base : String) (k : Nat) : candName base k ≠ base := by
  intro h
  have hd := congrArg (fun s => s.data.length) h
  simp only [candName, String.data_append, List.length_append] at hd
  have := natStr_data_ne_nil k
  have hlen : (natStr k).data.length ≠ 0 := by
    intro h0
    exact this (List.length_eq_zero.mp h0)
  omega

theorem uniqueNameGo_not_mem (names : List String) (base : String) :
    ∀ (fuel k : Nat) (rem : List String),
      (∀ j, k ≤ j → candName base j ∈ names → candName base j ∈ rem) →
      rem.length < fuel →
      uniqueNameGo names base fuel k ∉ names := by
  intro fuel
  induction fuel with
  | zero => intro k rem hsub hlen; omega
  | succ fuel ih =>
    intro k rem hsub hlen
    unfold uniqueNameGo
    by_cases hc : candName base k ∈ names
    · rw [if_pos hc]
      apply ih (k+1) (rem.erase (candName base k))
      · intro j hj hmem
        have hjr : candName base j ∈ rem := hsub j (by omega) hmem
        have hne : candName base j ≠ candName base k := by
          intro he
          have := candName_inj base j k he
          omega
        exact (List.mem_erase_of_ne hne).mpr hjr
      · have hkr : candName base k ∈ rem := hsub k (le_refl k) hc
        have h1 := List.length_erase_of_mem hkr
        have h2 : 0 < rem.length := List.length_pos_of_mem hkr
        omega
    · rw [if_neg hc]
      exact hc

theorem uniqueName_not_mem (names : List String) (base : String) :
    uniqueName names base ∉ names := by
  unfold uniqueName
  by_cases hb : base ∈ names
  · rw [if_pos hb]
    exact uniqueNameGo_not_mem names base (names.length + 1) 1 names
      (fun j _ h => h) (by omega)
  · rw [if_neg hb]
    exact hb

theorem uniqueNameGo_shape (names : List String) (base : String) :
    ∀ (fuel k : Nat), 1 ≤ k →
      ∃ j, 1 ≤ j ∧ uniqueNameGo names base fuel k = candName base j := by
  intro fuel
  induction fuel with
  | zero => intro k hk; exact ⟨k, hk, rfl⟩
  | succ fuel ih =>
    intro k hk
    unfold uniqueNameGo
    by_cases hc : candName base k ∈ names
    · rw [if_pos hc]
      exact ih (k+1) (by omega)
    · rw [if_neg hc]
      exact ⟨k, hk, rfl⟩

theorem uniqueName_shape (names : List String) (base : String) :
    uniqueName names base = base
    ∨ ∃ j, 1 ≤ j ∧ uniqueName names base = candName base j := by
  unfold uniqueName
  by_cases hb : base ∈ names
  · rw [if_pos hb]
    exact Or.inr (uniqueNameGo_shape names base (names.length + 1) 1 (le_refl 1))
  · rw [if_neg hb]
    exact Or.inl rfl

/-! ## Batch staging lemmas -/

theorem processOneJob_names (fs : FS) (reg : Registry) (st : BatchState) (rawId : String)
    (st' : BatchState) (h : processOneJob fs reg st rawId = Except.ok st') :
    st'.names = st.names
    ∨ ∃ base, st'.names = uniqueName st.names base :: st.names := by
  unfold processOneJob at h
  simp only [] at h
  split at h
  · simp only [Except.ok.injEq] at h
    subst h
    exact Or.inl rfl
  · split at h
    next => -- id absent
      simp only [Except.ok.injEq] at h
      subst h
      exact Or.inl rfl
    next j hj =>
      split at h
      next => -- not completed
        simp only [Except.ok.injEq] at h
        subst h
        exact Or.inl rfl
      next =>
        split at h
        next => exact absurd h (by simp)
        next od hod =>
          simp only [Except.ok.injEq] at h
          subst h
          exact Or.inr ⟨strip_pdf j.filename, rfl⟩

theorem processJobs_names_nodup (fs : FS) (reg : Registry) :
    ∀ (ids : List String) (st st' : BatchState), st.names.Nodup →
      processJobs fs reg ids st = Except.ok st' → st'.names.Nodup := by
  intro ids
  induction ids with
  | nil =>
    intro st st' hnd h
    unfold processJobs at h
    simp only [Except.ok.injEq] at h
    subst h
    exact hnd
  | cons id rest ih =>
    intro st st' hnd h
    unfold processJobs at h
    cases hstep : processOneJob fs reg st id with
    | error e =>
      simp only [hstep] at h
      exact Except.noConfusion h
    | ok st1 =>
      simp only [hstep] at h
      apply ih st1 st' _ h
      rcases processOneJob_names fs reg st id st1 hstep with heq | ⟨base, heq⟩
      · rw [heq]; exact hnd
      · rw [heq]
        exact List.nodup_cons.mpr ⟨uniqueName_not_mem st.names base, hnd⟩

/-! ## C3: collision-safe subfolder naming -/

/-- C3 (amended): in the batch package, each job's subfolder name is its
filename with every occurrence of `.pdf` and `.PDF` removed (the code's
`replace`, not a strip of the final extension only); the name chosen for a
job is that base name when free and otherwise the first free
`base_1`, `base_2`, ...; a chosen name never equals an already existing
folder name, a free base is used unchanged, and a whole batch run keeps
the staging folder names pairwise distinct, so no job's files overwrite
another's. -/
theorem batch_folder_naming (names : List String) (base : String) :
    uniqueName names base ∉ names
    ∧ (uniqueName names base = base
        ∨ ∃ k, 1 ≤ k ∧ uniqueName names base = candName base k)
    ∧ (base ∉ names → uniqueName names base = base)
    ∧ (∀ (fs : FS) (reg : Registry) (ids : List String) (st st' : BatchState),
        st.names.Nodup → processJobs fs reg ids st = Except.ok st' →
        st'.names.Nodup) := by
  refine ⟨uniqueName_not_mem names base, uniqueName_shape names base, ?_,
    fun fs reg ids st st' => processJobs_names_nodup fs reg ids st st'⟩
  intro hb
  unfold uniqueName
  rw [if_neg hb]

/-- Witness for C3 (amended): two completed jobs with the same filename
`doc.pdf` produce the two distinct subfolders `doc` and `doc_1`. -/
theorem batch_folder_naming_witness :
    processJobs sampleFS [("j1", sampleCompleted), ("j4", sampleCompletedTwin)]
        ["j1", "j4"] ⟨[], [], 0⟩
      = Except.ok ⟨["doc_1", "doc"],
          [("doc_1/doc.md", "# Twin"), ("doc/images/img1.png", "PNG1"),
           ("doc/doc.md", "# Title")], 2⟩
    ∧ (["doc_1", "doc"] : List String).Nodup := by
  have hok : processJobs sampleFS [("j1", sampleCompleted), ("j4", sampleCompletedTwin)]
      ["j1", "j4"] ⟨[], [], 0⟩
      = Except.ok ⟨["doc_1", "doc"],
          [("doc_1/doc.md", "# Twin"), ("doc/images/img1.png", "PNG1"),
           ("doc/doc.md", "# Title")], 2⟩ := by rfl
  refine ⟨hok, ?_⟩
  have := (batch_folder_naming [] "doc").2.2.2 sampleFS
    [("j1", sampleCompleted), ("j4", sampleCompletedTwin)] ["j1", "j4"]
    ⟨[], [], 0⟩ _ (by decide) hok
  simp only [] at this
  exact this

/-- C3 counterexample: the claim says the subfolder name is the filename
with the extension stripped; for the completed job with filename
`a.pdfb.pdf` the code produces the folder `ab` (it removes every `.pdf`
occurrence), while the extension-stripped name `a.pdfb` appears nowhere. -/
theorem batch_folder_not_ext_stripped :
    processJobs sampleFS [("j3", sampleCompletedOdd)] ["j3"] ⟨[], [], 0⟩
      = Except.ok ⟨["ab"], [("ab/ab.md", "# Odd")], 1⟩
    ∧ stripExtSpec sampleCompletedOdd.filename = "a.pdfb"
    ∧ "a.pdfb" ∉ (["ab"] : List String) := by
  exact ⟨by rfl, by decide, by decide⟩

theorem mem_foldl_imgs (fs : FS) (output_dir folder : String) (x : String × String) :
    ∀ (l : List String) (acc : List (String × String)), x ∈ acc →
      x ∈ l.foldl (fun acc img =>
        match fsLookup fs (pathJoin output_dir img) with
        | some c => (pathJoin folder (pathJoin "images" img), c) :: acc
        | none => acc) acc := by
  intro l
  induction l with
  | nil => intro acc hx; exact hx
  | cons img rest ih =>
    intro acc hx
    simp only [List.foldl_cons]
    apply ih
    cases hc : fsLookup fs (pathJoin output_dir img) with
    | none => simp only [hc]; exact hx
    | some c => simp only [hc]; exact List.mem_cons_of_mem _ hx

theorem processOneJob_spec (fs : FS) (reg : Registry) (hwf : completedHasOutputDir reg)
    (st : BatchState) (rawId : String) :
    ∃ st', processOneJob fs reg st rawId = Except.ok st'
      ∧ st'.processed = st.processed + (if qualifiesMd reg fs rawId = true then 1 else 0)
      ∧ (∀ e ∈ st.entries, e ∈ st'.entries)
      ∧ (∀ n ∈ st.names, n ∈ st'.names)
      ∧ (qualifiesMd reg fs rawId = true →
          ∃ j c, List.lookup (String.mk (pyStrip rawId.data)) reg = some j
            ∧ ∃ folder ∈ st'.names,
                (pathJoin folder (strip_pdf j.filename ++ ".md"), c) ∈ st'.entries) := by
  by_cases h0 : String.mk (pyStrip rawId.data) = ""
  · simp only [processOneJob, qualifiesMd, h0, if_pos, if_true, reduceIte]
    exact ⟨st, rfl, by simp, fun e he => he, fun n hn => hn, by simp⟩
  · cases hl : List.lookup (String.mk (pyStrip rawId.data)) reg with
    | none =>
      simp only [processOneJob, qualifiesMd, if_neg h0, hl]
      exact ⟨st, rfl, by simp, fun e he => he, fun n hn => hn, by simp⟩
    | some j =>
      by_cases hs : j.status = Status.completed
      · cases hod : j.output_dir with
        | none => exact absurd hod (hwf _ _ hl hs)
        | some od =>
          cases hmd : fsLookup fs (pathJoin od "output.md") with
          | some c =>
            simp only [processOneJob, qualifiesMd, if_neg h0, hl, hs, hod, hmd,
              ne_eq, not_true_eq_false, if_false, Bool.false_eq_true,
              Option.isSome_some, if_true, reduceIte]
            refine ⟨_, rfl, by simp, ?_, ?_, ?_⟩
            · intro e he
              cases j.images with
              | none => exact List.mem_cons_of_mem _ he
              | some imgs =>
                exact mem_foldl_imgs fs od (uniqueName st.names (strip_pdf j.filename))
                  e imgs _ (List.mem_cons_of_mem _ he)
            · intro n hn
              exact List.mem_cons_of_mem _ hn
            · intro _
              refine ⟨j, c, rfl, uniqueName st.names (strip_pdf j.filename),
                List.mem_cons_self _ _, ?_⟩
              cases j.images with
              | none => exact List.mem_cons_self _ _
              | some imgs =>
                exact mem_foldl_imgs fs od (uniqueName st.names (strip_pdf j.filename))
                  _ imgs _ (List.mem_cons_self _ _)
          | none =>
            simp only [processOneJob, qualifiesMd, if_neg h0, hl, hs, hod, hmd,
              ne_eq, not_true_eq_false, if_false, Bool.false_eq_true,
              Option.isSome_none, if_true, reduceIte]
            refine ⟨_, rfl, by simp, ?_, ?_, by simp⟩
            · intro e he
              cases j.images with
              | none => exact he
              | some imgs =>
                exact mem_foldl_imgs fs od (uniqueName st.names (strip_pdf j.filename))
                  e imgs _ he
            · intro n hn
              exact List.mem_cons_of_mem _ hn
      · simp only [processOneJob, qualifiesMd, if_neg h0, hl, hs, ne_eq,
          not_false_eq_true, ite_true, ite_false, Bool.false_eq_true, reduceIte]
        exact ⟨st, rfl, by simp, fun e he => he, fun n hn => hn, by simp⟩

theorem processJobs_ok (fs : FS) (reg : Registry) (hwf : completedHasOutputDir reg) :
    ∀ (ids : List String) (st : BatchState),
      ∃ st', processJobs fs reg ids st = Except.ok st'
        ∧ st'.processed = st.processed + ids.countP (fun i => qualifiesMd reg fs i)
        ∧ (∀ e ∈ st.entries, e ∈ st'.entries)
        ∧ (∀ n ∈ st.names, n ∈ st'.names)
        ∧ (∀ i ∈ ids, qualifiesMd reg fs i = true →
            ∃ j c, List.lookup (String.mk (pyStrip i.data)) reg = some j
              ∧ ∃ folder ∈ st'.names,
                  (pathJoin folder (strip_pdf j.filename ++ ".md"), c) ∈ st'.entries) := by
  intro ids
  induction ids with
  | nil =>
    intro st
    exact ⟨st, rfl, by simp, fun e he => he, fun n hn => hn, by simp⟩
  | cons id rest ih =>
    intro st
    obtain ⟨st1, hstep, hp1, he1, hn1, hq1⟩ := processOneJob_spec fs reg hwf st id
    obtain ⟨st', hrun, hp2, he2, hn2, hq2⟩ := ih st1
    refine ⟨st', ?_, ?_, fun e he => he2 e (he1 e he), fun n hn => hn2 n (hn1 n hn), ?_⟩
    · unfold processJobs
      simp only [hstep]
      exact hrun
    · rw [hp2, hp1, List.countP_cons]
      cases hq : qualifiesMd reg fs id <;> simp [hq] <;> omega
    · intro i hi hqi
      rcases List.mem_cons.mp hi with rfl | hmem
      · obtain ⟨j, c, hlj, folder, hf, hentry⟩ := hq1 hqi
        exact ⟨j, c, hlj, folder, hn2 folder hf, he2 _ hentry⟩
      · exact hq2 i hmem hqi

/-! ## C1: the Empty signal of the batch download -/

/-- C1 (amended): the batch download fails with the Empty signal ("No
completed PDFs found to download", 404) exactly when none of the
requested ids designates a registered, `completed` job whose content file
`output.md` exists on disk; whenever at least one requested id does, the
archive is produced and holds that job's subfolder with its content file.
(Presence and `completed` status alone are not enough: a completed job
whose content file is missing from disk is not counted.) -/
theorem download_all_pdfs_empty_iff (reg : Registry) (fs : FS) (ids : List String)
    (hids : ¬(ids = [] ∨ ids = [""])) (hwf : completedHasOutputDir reg) :
    ((download_all_pdfs reg fs ids false).1 = BatchResult.empty ↔
      ∀ i ∈ ids, qualifiesMd reg fs i = false)
    ∧ (∀ i ∈ ids, qualifiesMd reg fs i = true →
        ∃ dirs files cnt, (download_all_pdfs reg fs ids false).1
            = BatchResult.archive dirs files cnt
          ∧ ∃ j c, List.lookup (String.mk (pyStrip i.data)) reg = some j
              ∧ ∃ folder ∈ dirs,
                  (pathJoin folder (strip_pdf j.filename ++ ".md"), c) ∈ files) := by
  obtain ⟨st', hrun, hproc, hent, hnam, hqual⟩ := processJobs_ok fs reg hwf ids ⟨[], [], 0⟩
  have hproc' : st'.processed = ids.countP (fun i => qualifiesMd reg fs i) := by
    simpa using hproc
  have hres : download_all_pdfs reg fs ids false
      = (if st'.processed = 0 then (BatchResult.empty, false)
         else (BatchResult.archive st'.names st'.entries st'.processed, false)) := by
    unfold download_all_pdfs
    rw [if_neg hids]
    simp only [hrun]
    by_cases hz : st'.processed = 0
    · rw [if_pos hz, if_pos hz]
    · rw [if_neg hz, if_neg hz]
      simp
  constructor
  · constructor
    · intro h
      rw [hres] at h
      by_cases hz : st'.processed = 0
      · have hcount : ids.countP (fun i => qualifiesMd reg fs i) = 0 := by omega
        intro i hi
        have := List.countP_eq_zero.mp hcount i hi
        simpa using this
      · rw [if_neg hz] at h
        exact absurd h (by simp)
    · intro hall
      have hcount : ids.countP (fun i => qualifiesMd reg fs i) = 0 :=
        List.countP_eq_zero.mpr (fun a ha => by rw [hall a ha]; simp)
      have hz : st'.processed = 0 := by omega
      rw [hres, if_pos hz]
  · intro i hi hqi
    have hpos : 0 < ids.countP (fun i => qualifiesMd reg fs i) :=
      List.countP_pos_iff.mpr ⟨i, hi, hqi⟩
    have hz : ¬ st'.processed = 0 := by omega
    rw [hres, if_neg hz]
    exact ⟨st'.names, st'.entries, st'.processed, rfl, hqual i hi hqi⟩

theorem sampleRegWf : completedHasOutputDir [("j1", sampleCompleted)] := by
  intro id j h hc
  by_cases hb : (id == "j1") = true
  · simp only [List.lookup, hb] at h
    cases h
    simp [sampleCompleted]
  · rw [Bool.not_eq_true] at hb
    simp only [List.lookup, hb] at h
    exact Option.noConfusion h

/-- Witness for C1 (amended) in both directions: with the content file on
disk the archive is produced with the job's subfolder; with an empty
filesystem the very same completed job yields the Empty signal. -/
theorem download_all_pdfs_empty_iff_witness :
    (¬ ((download_all_pdfs [("j1", sampleCompleted)] sampleFS ["j1"] false).1
        = BatchResult.empty)
      ∧ ∃ dirs files cnt,
          (download_all_pdfs [("j1", sampleCompleted)] sampleFS ["j1"] false).1
            = BatchResult.archive dirs files cnt)
    ∧ ((download_all_pdfs [("j1", sampleCompleted)] [] ["j1"] false).1
        = BatchResult.empty) := by
  have hwf := sampleRegWf
  have hids : ¬((["j1"] : List String) = [] ∨ (["j1"] : List String) = [""]) := by decide
  have hq : qualifiesMd [("j1", sampleCompleted)] sampleFS "j1" = true := by decide
  have h1 := download_all_pdfs_empty_iff [("j1", sampleCompleted)] sampleFS ["j1"] hids hwf
  have h2 := download_all_pdfs_empty_iff [("j1", sampleCompleted)] [] ["j1"] hids hwf
  refine ⟨⟨?_, ?_⟩, ?_⟩
  · intro he
    have := (h1.1.mp he) "j1" (by decide)
    rw [hq] at this
    cases this
  · obtain ⟨dirs, files, cnt, harch, _⟩ := h1.2 "j1" (by decide) hq
    exact ⟨dirs, files, cnt, harch⟩
  · exact h2.1.mpr (by decide)

/-- C1 counterexample: a requested id that is present in the registry with
status `completed` nevertheless produces the Empty signal when the job's
content file is absent from disk, so the claimed "if and only if zero
requested ids are present and completed" is false. -/
theorem download_all_pdfs_empty_despite_completed :
    (download_all_pdfs [("j1", sampleCompleted)] [] ["j1"] false).1 = BatchResult.empty
    ∧ List.lookup "j1" [("j1", sampleCompleted)] = some sampleCompleted
    ∧ sampleCompleted.status = Status.completed := by
  exact ⟨by rfl, by rfl, by rfl⟩

/-! ## C2: staging directory cleanup -/

/-- C2 (amended): when no step raises, both package builders remove their
staging directory before returning, on the archive path and on the batch
Empty path alike; but the guarantee does not cover raising steps (see the
counterexample: a raising `make_archive` leaves the staging directory
behind, as the source has no try/finally around the staging steps). -/
theorem staging_cleanup (reg : Registry) (fs : FS) (job_id : String) (ids : List String)
    (hwf : completedHasOutputDir reg) :
    (download_package reg fs job_id false).2 = false
    ∧ (download_all_pdfs reg fs ids false).2 = false := by
  constructor
  · unfold download_package
    split
    · rfl
    · split
      · rfl
      · split
        · rfl
        · rfl
  · unfold download_all_pdfs
    split
    · rfl
    · obtain ⟨st', hrun, -, -, -, -⟩ := processJobs_ok fs reg hwf ids ⟨[], [], 0⟩
      simp only [hrun]
      split
      · rfl
      · rfl

/-- Witness for C2 (amended) at a concrete completed job. -/
theorem staging_cleanup_witness :
    (download_package [("j1", sampleCompleted)] sampleFS "j1" false).2 = false
    ∧ (download_all_pdfs [("j1", sampleCompleted)] sampleFS ["j1"] false).2 = false :=
  ⟨(staging_cleanup [("j1", sampleCompleted)] sampleFS "j1" ["j1"] sampleRegWf).1,
   (staging_cleanup [("j1", sampleCompleted)] sampleFS "j1" ["j1"] sampleRegWf).2⟩

/-- C2 counterexample: when `shutil.make_archive` raises, both builders
return with the staging directory still on disk — the claimed cleanup on
every failure path does not hold. -/
theorem staging_left_behind_on_archive_error :
    (download_package [("j1", sampleCompleted)] sampleFS "j1" true).2 = true
    ∧ (download_all_pdfs [("j1", sampleCompleted)] sampleFS ["j1"] true).2 = true :=
  ⟨rfl, rfl⟩

/-! ## C10: the max_parallel parameter -/

/-- C10 (amended): for any two submission requests identical except for
`max_parallel`, as long as both values parse as integers (including the
absent-field default), the resulting registry entries, submitted worker
tasks and response are identical — the parsed value flows nowhere — and
the pool size is the fixed constant 5.  (When parsing fails the whole
request fails instead; see the counterexample.) -/
theorem upload_ignores_max_parallel (reg : Registry) (sanitize : String → String)
    (form : UploadForm) (fresh : Nat → String) (k : Nat) (now : String)
    (v1 v2 : Option String)
    (h1 : (parse_max_parallel v1).isSome = true)
    (h2 : (parse_max_parallel v2).isSome = true) :
    upload_pdf reg sanitize { form with max_parallel := v1 } fresh k now
      = upload_pdf reg sanitize { form with max_parallel := v2 } fresh k now
    ∧ pdf_executor_max_workers = 5 := by
  refine ⟨?_, rfl⟩
  obtain ⟨m1, hm1⟩ := Option.isSome_iff_exists.mp h1
  obtain ⟨m2, hm2⟩ := Option.isSome_iff_exists.mp h2
  unfold upload_pdf
  rcases form with ⟨pdfs, api_key, base_url, model, gpt_worker, max_parallel⟩
  cases pdfs with
  | none => rfl
  | some files =>
    simp only
    by_cases hf : files = [] ∨ files.head? = some ""
    · rw [if_pos hf, if_pos hf]
    · rw [if_neg hf, if_neg hf]
      by_cases ha : api_key = none ∨ api_key = some ""
      · rw [if_pos ha, if_pos ha]
      · rw [if_neg ha, if_neg ha]
        cases hgw : parse_gpt_worker gpt_worker with
        | none => simp only [hgw]
        | some gw =>
          simp only [hgw, hm1, hm2]

/-- Witness for C10 (amended): two parseable values give identical runs. -/
theorem upload_ignores_max_parallel_witness :
    upload_pdf [] id { formOk with max_parallel := some "3" } (fun _ => "id0") 0 "t0"
      = upload_pdf [] id { formOk with max_parallel := some "7" } (fun _ => "id0") 0 "t0" :=
  (upload_ignores_max_parallel [] id formOk (fun _ => "id0") 0 "t0" (some "3") (some "7")
    (by decide) (by decide)).1

/-- C10 counterexample: two requests identical except for `max_parallel`
("3" versus the non-numeric "x") produce different outcomes — the first
creates a job, the second fails whole — so the value is not entirely
without effect: its parse can abort the request. -/
theorem upload_depends_on_max_parallel_parse :
    upload_pdf [] id formOk (fun _ => "id0") 0 "t0"
      ≠ upload_pdf [] id formBad (fun _ => "id0") 0 "t0"
    ∧ formOk.pdfs = formBad.pdfs ∧ formOk.api_key = formBad.api_key
    ∧ formOk.base_url = formBad.base_url ∧ formOk.model = formBad.model
    ∧ formOk.gpt_worker = formBad.gpt_worker := by
  refine ⟨?_, rfl, rfl, rfl, rfl, rfl⟩
  intro h
  have h1 : (upload_pdf [] id formOk (fun _ => "id0") 0 "t0").2.2
      = UploadResponse.success ["id0"] 1 := rfl
  have h2 : (upload_pdf [] id formBad (fun _ => "id0") 0 "t0").2.2
      = UploadResponse.failure "invalid literal for int() with base 10: max_parallel" := rfl
  rw [h] at h1
  exact UploadResponse.noConfusion (h1.symm.trans h2)

/-! ## Pool model lemmas -/

theorem lookup_append_some (l1 l2 : Registry) (x : String) (v : Job)
    (h : List.lookup x l1 = some v) : List.lookup x (l1 ++ l2) = some v := by
  induction l1 with
  | nil => simp [List.lookup] at h
  | cons p rest ih =>
    obtain ⟨a, b⟩ := p
    simp only [List.cons_append, List.lookup] at h ⊢
    cases hb : (x == a)
    · simp only [hb] at h ⊢
      exact ih h
    · simp only [hb] at h ⊢
      exact h

theorem lookup_append_none (l1 l2 : Registry) (x : String)
    (h : List.lookup x l1 = none) :
    List.lookup x (l1 ++ l2) = List.lookup x l2 := by
  induction l1 with
  | nil => simp
  | cons p rest ih =>
    obtain ⟨a, b⟩ := p
    simp only [List.cons_append, List.lookup] at h ⊢
    cases hb : (x == a)
    · simp only [hb] at h ⊢
      exact ih h
    · simp only [hb] at h
      exact Option.noConfusion h

theorem lookup_eq_none_iff (G : Registry) (x : String) :
    List.lookup x G = none ↔ x ∉ G.map Prod.fst := by
  induction G with
  | nil => simp [List.lookup]
  | cons p rest ih =>
    obtain ⟨a, b⟩ := p
    simp only [List.lookup, List.map_cons, List.mem_cons]
    cases hb : (x == a)
    · have hne : x ≠ a := by simpa using (beq_eq_false_iff_ne (a := x) (b := a)).mp hb
      simp [hb, hne, ih]
    · have heq : x = a := by simpa using hb
      simp [hb, heq]

theorem lookup_updateEntry_none (G : Registry) (id : String) (w : Job)
    (h : List.lookup id G = none) :
    List.lookup id (updateEntry G id w) = none := by
  induction G with
  | nil => rfl
  | cons p rest ih =>
    obtain ⟨a, b⟩ := p
    by_cases hp : a = id
    · subst hp
      simp [List.lookup] at h
    · rw [updateEntry_cons_ne a id b w rest hp]
      have hne : (id == a) = false := by
        simp only [beq_eq_false_iff_ne, ne_eq]
        exact fun he => hp he.symm
      simp only [List.lookup, hne] at h ⊢
      exact ih h

theorem lookup_updateEntry_isSome (G : Registry) (id x : String) (w : Job) :
    (List.lookup x (updateEntry G id w)).isSome = (List.lookup x G).isSome := by
  by_cases hx : x = id
  · subst hx
    cases hl : List.lookup x G with
    | none => rw [lookup_updateEntry_none G x w hl]
    | some j =>
      rw [lookup_updateEntry_self G x j w hl]
      rfl
  · rw [lookup_updateEntry_ne G id x w hx]

theorem updateEntry_keys (G : Registry) (id : String) (w : Job) :
    (updateEntry G id w).map Prod.fst = G.map Prod.fst := by
  induction G with
  | nil => rfl
  | cons p rest ih =>
    obtain ⟨a, b⟩ := p
    by_cases hp : a = id
    · subst hp
      rw [updateEntry_cons_self]
      simp [ih]
    · rw [updateEntry_cons_ne a id b w rest hp]
      simp [ih]

theorem processSnapshots_last (j0 : Job) (fn od : String)
    (res : Except String (String × List String)) :
    ∃ w, (processSnapshots j0 fn od res).getLast? = some w ∧
      (w.status = Status.completed ∨ w.status = Status.failed) := by
  cases res with
  | ok p =>
    obtain ⟨c, imgs⟩ := p
    exact ⟨_, rfl, Or.inl rfl⟩
  | error e => exact ⟨_, rfl, Or.inr rfl⟩

theorem nodup_subset_length {α : Type} [DecidableEq α] (l1 l2 : List α)
    (hnd : l1.Nodup) (h : l1 ⊆ l2) : l1.length ≤ l2.length := by
  calc l1.length = l1.toFinset.card := (List.toFinset_card_of_nodup hnd).symm
    _ ≤ l2.toFinset.card := Finset.card_le_card (fun x hx => by
        simp only [List.mem_toFinset] at *
        exact h hx)
    _ ≤ l2.length := l2.toFinset_card_le

theorem processingCount_le (s : PoolState)
    (h4 : (s.reg.map Prod.fst).Nodup)
    (h6 : ∀ p ∈ s.reg, p.2.status = Status.processing →
      ∃ t ∈ s.running, t.id = p.1 ∧ t.writes ≠ []) :
    processingCount s.reg ≤ s.running.length := by
  unfold processingCount
  rw [List.countP_eq_length_filter]
  have hsub : (s.reg.filter (fun p => p.2.status = Status.processing)).map Prod.fst
      ⊆ s.running.map WTask.id := by
    intro x hx
    obtain ⟨p, hp, rfl⟩ := List.mem_map.mp hx
    have hpr := List.mem_filter.mp hp
    obtain ⟨t, ht, htid, -⟩ := h6 p hpr.1 (by simpa using hpr.2)
    exact List.mem_map.mpr ⟨t, ht, htid⟩
  have hnd : ((s.reg.filter (fun p => p.2.status = Status.processing)).map Prod.fst).Nodup :=
    List.Nodup.sublist ((List.filter_sublist _).map Prod.fst) h4
  have hlen := nodup_subset_length _ _ hnd hsub
  simpa using hlen

theorem poolInv_step {s s' : PoolState} (hinv : poolInv s) (hstep : PoolStep s s') :
    poolInv s' := by
  obtain ⟨h1, h2, h3, h4, h5, h6⟩ := hinv
  cases hstep with
  | submit j0 fn od res hfresh hq =>
    have hfresh_ids : j0.job_id ∉ (s.pending ++ s.running).map WTask.id := by
      intro hmem
      obtain ⟨t, ht, htid⟩ := List.mem_map.mp hmem
      have hsome := h3 t ht
      rw [htid, hfresh] at hsome
      simp at hsome
    refine ⟨h1, ?_, ?_, ?_, ?_, ?_⟩
    · show ((s.pending ++ [(⟨j0.job_id, processSnapshots j0 fn od res⟩ : WTask)]
          ++ s.running).map WTask.id).Nodup
      rw [List.append_assoc, List.singleton_append]
      simp only [List.map_append, List.map_cons]
      rw [List.nodup_middle]
      refine List.nodup_cons.mpr ⟨?_, ?_⟩
      · rw [← List.map_append]
        exact hfresh_ids
      · rw [← List.map_append]
        exact h2
    · intro t ht
      rw [List.append_assoc, List.singleton_append] at ht
      rcases List.mem_append.mp ht with hP | hR
      · have hsome := h3 t (List.mem_append.mpr (Or.inl hP))
        obtain ⟨v, hv⟩ := Option.isSome_iff_exists.mp hsome
        rw [lookup_append_some s.reg [(j0.job_id, j0)] t.id v hv]
        rfl
      · rcases List.mem_cons.mp hR with rfl | hR'
        · show (List.lookup j0.job_id (s.reg ++ [(j0.job_id, j0)])).isSome = true
          rw [lookup_append_none s.reg [(j0.job_id, j0)] j0.job_id hfresh]
          simp [List.lookup]
        · have hsome := h3 t (List.mem_append.mpr (Or.inr hR'))
          obtain ⟨v, hv⟩ := Option.isSome_iff_exists.mp hsome
          rw [lookup_append_some s.reg [(j0.job_id, j0)] t.id v hv]
          rfl
    · show ((s.reg ++ [(j0.job_id, j0)]).map Prod.fst).Nodup
      rw [List.map_append]
      rw [List.nodup_append]
      refine ⟨h4, by simp, ?_⟩
      intro a ha hb
      simp only [List.map_cons, List.map_nil, List.mem_singleton] at hb
      subst hb
      exact (lookup_eq_none_iff s.reg j0.job_id).mp hfresh ha
    · intro t ht hne
      rw [List.append_assoc, List.singleton_append] at ht
      rcases List.mem_append.mp ht with hP | hR
      · exact h5 t (List.mem_append.mpr (Or.inl hP)) hne
      · rcases List.mem_cons.mp hR with rfl | hR'
        · exact processSnapshots_last j0 fn od res
        · exact h5 t (List.mem_append.mpr (Or.inr hR')) hne
    · intro p hp hproc
      rcases List.mem_append.mp hp with hG | hNew
      · exact h6 p hG hproc
      · simp only [List.mem_singleton] at hNew
        subst hNew
        rw [hq] at hproc
        exact Status.noConfusion hproc
  | start t rest hcap hq =>
    refine ⟨?_, ?_, ?_, h4, ?_, ?_⟩
    · show (t :: s.running).length ≤ pdf_executor_max_workers
      simp only [List.length_cons]
      omega
    · show ((rest ++ t :: s.running).map WTask.id).Nodup
      rw [hq] at h2
      simp only [List.map_append, List.map_cons, List.cons_append] at h2 ⊢
      rw [List.nodup_middle]
      exact h2
    · intro t' ht'
      apply h3
      rw [hq]
      rcases List.mem_append.mp ht' with hP | hR
      · exact List.mem_append.mpr (Or.inl (List.mem_cons_of_mem _ hP))
      · rcases List.mem_cons.mp hR with rfl | hR'
        · exact List.mem_append.mpr (Or.inl (List.mem_cons_self _ _))
        · exact List.mem_append.mpr (Or.inr hR')
    · intro t' ht' hne
      apply h5 t' _ hne
      rw [hq]
      rcases List.mem_append.mp ht' with hP | hR
      · exact List.mem_append.mpr (Or.inl (List.mem_cons_of_mem _ hP))
      · rcases List.mem_cons.mp hR with rfl | hR'
        · exact List.mem_append.mpr (Or.inl (List.mem_cons_self _ _))
        · exact List.mem_append.mpr (Or.inr hR')
    · intro p hp hproc
      obtain ⟨t', ht', htid, hwne⟩ := h6 p hp hproc
      exact ⟨t', List.mem_cons_of_mem _ ht', htid, hwne⟩
  | write t w ws hmem hw =>
    have htR : t ∈ s.pending ++ s.running := List.mem_append.mpr (Or.inr hmem)
    obtain ⟨wlast, hlast, hterm⟩ := h5 t htR (by rw [hw]; simp)
    rw [hw] at hlast
    refine ⟨?_, ?_, ?_, ?_, ?_, ?_⟩
    · show (⟨t.id, ws⟩ :: s.running.erase t : List WTask).length ≤ pdf_executor_max_workers
      have hlenE := List.length_erase_of_mem hmem
      have hpos : 0 < s.running.length := List.length_pos_of_mem hmem
      simp only [List.length_cons, hlenE]
      omega
    · show ((s.pending ++ ({ id := t.id, writes := ws } : WTask) :: s.running.erase t).map
        WTask.id).Nodup
      have hpermR : List.Perm (List.map WTask.id s.running)
          (List.map WTask.id (({ id := t.id, writes := ws } : WTask) :: s.running.erase t)) := by
        have hpc : List.Perm s.running (t :: s.running.erase t) := List.perm_cons_erase hmem
        have hmap := hpc.map WTask.id
        simpa using hmap
      have hperm2 : List.Perm (List.map WTask.id (s.pending ++ s.running))
          (List.map WTask.id
            (s.pending ++ ({ id := t.id, writes := ws } : WTask) :: s.running.erase t)) := by
        rw [List.map_append, List.map_append]
        exact List.Perm.append_left _ hpermR
      exact hperm2.nodup_iff.mp h2
    · intro t' ht'
      rw [lookup_updateEntry_isSome]
      rcases List.mem_append.mp ht' with hP | hR
      · exact h3 t' (List.mem_append.mpr (Or.inl hP))
      · rcases List.mem_cons.mp hR with rfl | hR'
        · exact h3 t htR
        · exact h3 t' (List.mem_append.mpr (Or.inr (List.mem_of_mem_erase hR')))
    · rw [updateEntry_keys]
      exact h4
    · intro t' ht' hne
      rcases List.mem_append.mp ht' with hP | hR
      · exact h5 t' (List.mem_append.mpr (Or.inl hP)) hne
      · rcases List.mem_cons.mp hR with rfl | hR'
        · show ∃ v, ws.getLast? = some v ∧
            (v.status = Status.completed ∨ v.status = Status.failed)
          cases hws : ws with
          | nil =>
            rw [hws] at hne
            exact absurd rfl hne
          | cons w2 ws2 =>
            rw [hws, List.getLast?_cons_cons] at hlast
            exact ⟨wlast, hlast, hterm⟩
        · exact h5 t' (List.mem_append.mpr (Or.inr (List.mem_of_mem_erase hR'))) hne
    · intro p hp hproc
      obtain ⟨q, hq', hpq⟩ := List.mem_map.mp hp
      by_cases hqid : q.1 = t.id
      · rw [if_pos hqid] at hpq
        subst hpq
        refine ⟨⟨t.id, ws⟩, List.mem_cons_self _ _, rfl, ?_⟩
        intro hws
        have hws' : ws = [] := hws
        rw [hws'] at hlast
        have hw_eq : w = wlast := by
          simpa using hlast
        subst hw_eq
        have hst : w.status = Status.processing := hproc
        rcases hterm with hterm | hterm <;> rw [hst] at hterm <;> exact Status.noConfusion hterm
      · rw [if_neg hqid] at hpq
        subst hpq
        obtain ⟨t'', ht'', htid, hwne⟩ := h6 q hq' hproc
        have htne : t'' ≠ t := by
          intro he
          rw [he] at htid
          exact hqid htid.symm
        exact ⟨t'', List.mem_cons_of_mem _ ((List.mem_erase_of_ne htne).mpr ht''), htid, hwne⟩
  | finish t hmem hdone =>
    refine ⟨?_, ?_, ?_, h4, ?_, ?_⟩
    · show (s.running.erase t).length ≤ pdf_executor_max_workers
      have hlenE := List.length_erase_of_mem hmem
      omega
    · show ((s.pending ++ s.running.erase t).map WTask.id).Nodup
      have hsub : List.Sublist (s.pending ++ s.running.erase t) (s.pending ++ s.running) :=
        List.Sublist.append_left (List.erase_sublist t s.running) s.pending
      exact List.Nodup.sublist (hsub.map WTask.id) h2
    · intro t' ht'
      apply h3
      rcases List.mem_append.mp ht' with hP | hR
      · exact List.mem_append.mpr (Or.inl hP)
      · exact List.mem_append.mpr (Or.inr (List.mem_of_mem_erase hR))
    · intro t' ht' hne
      apply h5 t' _ hne
      rcases List.mem_append.mp ht' with hP | hR
      · exact List.mem_append.mpr (Or.inl hP)
      · exact List.mem_append.mpr (Or.inr (List.mem_of_mem_erase hR))
    · intro p hp hproc
      obtain ⟨t'', ht'', htid, hwne⟩ := h6 p hp hproc
      have htne : t'' ≠ t := by
        intro he
        rw [he] at hwne
        exact hwne hdone
      exact ⟨t'', (List.mem_erase_of_ne htne).mpr ht'', htid, hwne⟩

theorem poolInv_reachable (s : PoolState) (h : PoolReachable s) : poolInv s := by
  induction h with
  | init =>
    refine ⟨?_, ?_, ?_, ?_, ?_, ?_⟩
    · show ([] : List WTask).length ≤ pdf_executor_max_workers
      simp [pdf_executor_max_workers]
    · simp
    · intro t ht
      simp at ht
    · simp
    · intro t ht
      simp at ht
    · intro p hp
      simp at hp
  | step hr hst ih => exact poolInv_step ih hst

/-! ## C8: bounded parallelism -/

/-- C8: in every state reachable by the pool semantics (submissions enter
the unbounded queue, a queued task starts only when fewer than 5 slots
are busy, each running task writes its job's checkpoints in order and
frees its slot at the end), the number of registry entries in
`processing` never exceeds the pool size 5, and neither does the number
of occupied slots; excess submissions sit in the queue. -/
theorem pool_bounded_processing (s : PoolState) (h : PoolReachable s) :
    processingCount s.reg ≤ pdf_executor_max_workers
    ∧ s.running.length ≤ pdf_executor_max_workers := by
  obtain ⟨h1, h2, h3, h4, h5, h6⟩ := poolInv_reachable s h
  exact ⟨le_trans (processingCount_le s h4 h6) h1, h1⟩

/-- Witness for C8 at the initial state. -/
theorem pool_bounded_processing_witness :
    processingCount (PoolState.mk [] [] []).reg ≤ pdf_executor_max_workers
    ∧ (PoolState.mk [] [] []).running.length ≤ pdf_executor_max_workers :=
  pool_bounded_processing ⟨[], [], []⟩ PoolReachable.init
